import Mathlib

/-!
Verification of the session-cipher negotiation layer (`shadowsocks/cipherman.py`,
class `CipherMan`) of the aioshadowsocks repository: user identification by
trial decryption, replay-salt guarding, partial-data buffering and the
protocol-dependent encrypt/decrypt surface.

Shallow embedding conventions:
* bytes are modelled as `List Nat`;
* the cipher classes (`shadowsocks/ciphers`, not part of the analysed source)
  are an external capability; they are modelled by a `CipherModel` record of
  pure functions over which the theorems are parametric;
* Python exceptions are the `PyError` type; an operation returns its mutated
  object state together with an `Except`/`Option PyError` value, because in
  Python the attribute mutations performed before a `raise` persist;
* the process-wide `BloomFilter` (`CipherMan.bf`) is modelled as an exact
  list of salts (the claims concern the check-then-insert logic, not the
  false-positive rate); it lives in `GlobalState` together with the
  prometheus counter `NETWORK_TRANSMIT_BYTES` and the persisted user
  directory written by `User.save`;
* `GlobalState` additionally carries observability counters mirroring the
  instrumentation decorators of the source (`FIND_ACCESS_USER_TIME` →
  `find_calls`, the local variable `cnt` of `_find_access_user` → `trials`)
  plus one extra ghost counter, `fast_decrypts`, counting executions of the
  persisted-cipher branch of `CipherMan.decrypt`; no source branch reads any
  of these counters.
-/

set_option autoImplicit false

/-- Transport flag: `protocol_flag.TRANSPORT_TCP` (STREAM) or
`TRANSPORT_UDP` (DATAGRAM). -/
inductive TSProtocol where
  | tcp
  | udp
deriving DecidableEq, Repr

/-- Python exception classes raised or caught in `cipherman.py`:
`ValueError` (with its `args[0]` message, used by the trial loop to detect
MAC failures), `RuntimeError` (replay / no-user / disabled-user),
`TypeError` (`len(None)`), `AttributeError` (attribute access on `None`).
Any other exception class escaping the cipher capability behaves like the
last two: it is not caught by the `except ValueError` clause. -/
inductive PyError where
  | valueError (msg : String)
  | runtimeError (msg : String)
  | typeError (msg : String)
  | attributeError (msg : String)
deriving DecidableEq, Repr

/-- The condition of the `except ValueError` handler in
`CipherMan._find_access_user`: the exception is a `ValueError` whose
`args[0]` equals `"MAC check failed"`; exactly these failures mean
"wrong candidate" and are swallowed by the trial loop. -/
def PyError.isMacFail : PyError → Bool
  | .valueError msg => msg = "MAC check failed"
  | _ => false

/-- Candidate user record (`shadowsocks.mdb.models.User`).  Only the fields
`cipherman.py` touches are modelled: `password`, `enable`, `access_order`
and the traffic counters behind `record_traffic`.  Peewee model instances
compare by primary key, so equality of users is equality of `uid`. -/
structure SUser where
  uid : Nat
  password : Nat
  enable : Bool
  access_order : Nat
  upload_traffic : Nat
  download_traffic : Nat
deriving DecidableEq, Repr

/-- Modelled from the spec: `User.record_traffic(in_bytes, out_bytes)`
(the `mdb.models` module is not part of the analysed source) adds the two
byte counts to the user's inbound and outbound traffic counters. -/
def SUser.record_traffic (u : SUser) (ib ob : Nat) : SUser :=
  { u with upload_traffic := u.upload_traffic + ib,
           download_traffic := u.download_traffic + ob }

/-- Modelled from the spec: the Cipher Capability (`shadowsocks/ciphers`,
external to the analysed source).  A cipher instance is constructed from a
user's password, exposes `SALT_SIZE`/`TAG_SIZE` constants, the
stream-oriented `decrypt`/`encrypt` and the datagram-oriented
`unpack`/`pack`; `decrypt`/`unpack` signal integrity failure as
`ValueError("MAC check failed")` and may signal other failures with other
errors.  The development is parametric in this record. -/
structure CipherModel where
  SALT_SIZE : Nat
  TAG_SIZE : Nat
  decrypt : Nat → List Nat → Except PyError (List Nat)
  unpack : Nat → List Nat → Except PyError (List Nat)
  encrypt : Nat → List Nat → List Nat
  pack : Nat → List Nat → List Nat

/-- A constructed cipher instance (`self.cipher_cls(user.password)`):
it is determined by the password it was built from. -/
structure SCipher where
  password : Nat
deriving DecidableEq, Repr

/-- Process-wide state shared by all sessions: the replay bloom filter
`CipherMan.bf` (as an exact list of salts), the
`NETWORK_TRANSMIT_BYTES` counter, the persisted user directory written by
`User.save`, and the observability counters described in the header. -/
structure GlobalState where
  bf : List (List Nat)
  network_transmit_bytes : Nat
  directory : List SUser
  find_calls : Nat
  trials : Nat
  fast_decrypts : Nat
deriving DecidableEq, Repr

/-- Per-session mutable state of a `CipherMan` instance: `user_list`,
`access_user`, `ts_protocol`, `cipher`, `_first_data`, `_buffer`,
`last_access_user` and the precomputed `_first_data_len`. -/
structure CipherMan where
  user_list : List SUser
  access_user : Option SUser
  ts_protocol : TSProtocol
  cipher : Option SCipher
  first_data : Option (List Nat)
  buffer : List Nat
  last_access_user : Option SUser
  first_data_len : Nat
deriving DecidableEq, Repr

/-- `CipherMan.__init__`: stores the candidate list, the optional pre-bound
user and the transport flag, starts with no cipher, no first data, an empty
buffer and no last-tried user, and computes `_first_data_len` as
`SALT_SIZE + 2 + TAG_SIZE` for TCP and `SALT_SIZE + TAG_SIZE` for UDP.
(The `method`/`cipher_cls` resolution is represented by the `CipherModel`
parameter threaded through every operation.) -/
def CipherMan.init (M : CipherModel) (user_list : List SUser)
    (access_user : Option SUser) (ts : TSProtocol) : CipherMan :=
  { user_list := user_list
    access_user := access_user
    ts_protocol := ts
    cipher := none
    first_data := none
    buffer := []
    last_access_user := none
    first_data_len :=
      match ts with
      | .tcp => M.SALT_SIZE + 2 + M.TAG_SIZE
      | .udp => M.SALT_SIZE + M.TAG_SIZE }

/-- `CipherMan.get_cipher_by_port`: `User.list_by_port(port)` is external to
the analysed source, so the candidate list it returns is taken as a
parameter; when that list has exactly one user the manager is pre-bound to
it (`access_user = user_list[0]`), otherwise `access_user = None`. -/
def CipherMan.get_cipher_by_port (M : CipherModel) (user_list : List SUser)
    (ts : TSProtocol) : CipherMan :=
  CipherMan.init M user_list
    (if user_list.length = 1 then user_list.head? else none) ts

/-- Result of `_find_access_user`: the mutated session and global state, the
trial counter `cnt` local to the call, and the raised exception if any. -/
structure FindOut where
  cm : CipherMan
  g : GlobalState
  cnt : Nat
  err : Option PyError
deriving DecidableEq, Repr

/-- Result of an operation returning a value: the mutated session and
global state and the returned value or raised exception. -/
structure PyOut (α : Type) where
  cm : CipherMan
  g : GlobalState
  ret : Except PyError α

/-- One trial attempt of the loop body of `_find_access_user`:
`cipher.decrypt(d)` for TCP, `cipher.unpack(d)` for UDP, on a cipher
instance built from password `pw`. -/
def CipherMan.trial (M : CipherModel) (ts : TSProtocol) (pw : Nat)
    (fd : List Nat) : Except PyError (List Nat) :=
  match ts with
  | .tcp => M.decrypt pw fd
  | .udp => M.unpack pw fd

/-- The `if not self.last_access_user: self.last_access_user = user`
statement at the top of every trial-loop iteration: the first iterated
candidate becomes `last_access_user` and later iterations leave it alone. -/
def CipherMan.seed_last (cm : CipherMan) (u : SUser) : CipherMan :=
  if cm.last_access_user = none then
    { cm with last_access_user := some u }
  else cm

/-- The `for user in self.user_list` loop of `_find_access_user`.  Each
iteration seeds `last_access_user` with the first iterated user, increments
`cnt`, and attempts a trial decryption with a cipher built from the user's
password.  On success (TCP) it stores the plaintext in `_first_data`,
persists the cipher instance in `self.cipher` and binds `access_user`,
breaking the loop; on success (UDP) it does the same without persisting a
cipher.  A `ValueError("MAC check failed")` moves on to the next candidate;
any other exception propagates and ends the loop. -/
def CipherMan.trial_loop (M : CipherModel) (ts : TSProtocol) (fd : List Nat) :
    List SUser → CipherMan → GlobalState → Nat → FindOut
  | [], cm, g, cnt => ⟨cm, g, cnt, none⟩
  | u :: rest, cm, g, cnt =>
    match CipherMan.trial M ts u.password fd with
    | .ok pt =>
        ⟨{ CipherMan.seed_last cm u with
            first_data := some pt
            cipher := match ts with
              | .tcp => some ⟨u.password⟩
              | .udp => (CipherMan.seed_last cm u).cipher
            access_user := some u },
          { g with trials := g.trials + 1 }, cnt + 1, none⟩
    | .error e =>
        if e.isMacFail then
          CipherMan.trial_loop M ts fd rest (CipherMan.seed_last cm u)
            { g with trials := g.trials + 1 } (cnt + 1)
        else
          ⟨CipherMan.seed_last cm u,
            { g with trials := g.trials + 1 }, cnt + 1, some e⟩

/-- `CipherMan._find_access_user(first_data)`: extract the leading
`SALT_SIZE` bytes as the salt; if the salt is already in the bloom filter
raise `RuntimeError("repeated salt founded!")`, otherwise add it and run
the trial loop over `user_list` with `cnt` starting at 0. -/
def CipherMan.find_access_user (M : CipherModel) (cm : CipherMan)
    (g : GlobalState) (fd : List Nat) : FindOut :=
  if fd.take M.SALT_SIZE ∈ g.bf then
    ⟨cm, { g with find_calls := g.find_calls + 1 }, 0,
      some (.runtimeError "repeated salt founded!")⟩
  else
    CipherMan.trial_loop M cm.ts_protocol fd cm.user_list cm
      { g with find_calls := g.find_calls + 1,
               bf := fd.take M.SALT_SIZE :: g.bf } 0

/-- `User.save()` on the matched user: persists the record through the user
directory (modelled from the spec: the directory entry with the same
identifier is overwritten). -/
def GlobalState.save (g : GlobalState) (u : SUser) : GlobalState :=
  { g with directory := g.directory.map fun v => if v.uid = u.uid then u else v }

/-- Lines 125–139 of `_init_cipher_and_decrypt_first_data`, reached with
the full blob consumed and `_find_access_user` already run when it had to:
raise `RuntimeError` when no user was found; raise `RuntimeError` when the
bound user's `enable` flag is false; when the bound user differs from
`last_access_user`, set its `access_order` to
`self.user_list.first().access_order + 1` (`first()` is the head of the
candidate list) and `save()` it through the directory; finally return
`self._first_data`. -/
def CipherMan.after_find (cm : CipherMan) (g : GlobalState) :
    PyOut (Option (List Nat)) :=
  match cm.access_user with
  | none => ⟨cm, g, .error (.runtimeError "没有找到合法的用户")⟩
  | some au =>
    if au.enable = false then
      ⟨cm, g, .error (.runtimeError "用户 enable = False")⟩
    else
      match cm.last_access_user with
      | some lu =>
        if au.uid ≠ lu.uid then
          match cm.user_list.head? with
          | none =>
              ⟨cm, g, .error (.attributeError "NoneType has no attribute access_order")⟩
          | some fu =>
              let au1 := { au with access_order := fu.access_order + 1 }
              ⟨{ cm with access_user := some au1 }, g.save au1, .ok cm.first_data⟩
        else ⟨cm, g, .ok cm.first_data⟩
      | none => ⟨cm, g, .ok cm.first_data⟩

/-- `CipherMan._init_cipher_and_decrypt_first_data(data)`.  Below the
threshold `_first_data_len` the call extends `_buffer` and returns `None`
(the buffering suspension); otherwise the buffer is prepended and cleared,
`_find_access_user` runs if no user is bound yet (an exception it raises
propagates, with the buffer already cleared), and the remaining checks and
the promotion are `CipherMan.after_find`. -/
def CipherMan.init_first (M : CipherModel) (cm : CipherMan) (g : GlobalState)
    (data : List Nat) : PyOut (Option (List Nat)) :=
  if data.length + cm.buffer.length < cm.first_data_len then
    ⟨{ cm with buffer := cm.buffer ++ data }, g, .ok none⟩
  else
    match ({ cm with buffer := [] } : CipherMan).access_user with
    | none =>
        let f := CipherMan.find_access_user M { cm with buffer := [] } g
          (cm.buffer ++ data)
        match f.err with
        | some e => ⟨f.cm, f.g, .error e⟩
        | none => CipherMan.after_find f.cm f.g
    | some _ => CipherMan.after_find { cm with buffer := [] } g

/-- `CipherMan._record_user_traffic(data_len)`: when a user is bound, add
`data_len` to both its traffic directions (`record_traffic(data_len,
data_len)`); always add `data_len` to `NETWORK_TRANSMIT_BYTES`. -/
def CipherMan.record_user_traffic (cm : CipherMan) (g : GlobalState)
    (n : Nat) : CipherMan × GlobalState :=
  let cm :=
    match cm.access_user with
    | some au => { cm with access_user := some (au.record_traffic n n) }
    | none => cm
  (cm, { g with network_transmit_bytes := g.network_transmit_bytes + n })

/-- `CipherMan.encrypt(data)`: record the input length as traffic; for UDP
build a fresh cipher from the bound user's password and `pack`; for TCP
lazily create `self.cipher` on first use and `encrypt` with it.  Accessing
`self.access_user.password` with no bound user raises `AttributeError`. -/
def CipherMan.encrypt (M : CipherModel) (cm : CipherMan) (g : GlobalState)
    (data : List Nat) : PyOut (List Nat) :=
  let (cm, g) := CipherMan.record_user_traffic cm g data.length
  match cm.ts_protocol with
  | .udp =>
    match cm.access_user with
    | none => ⟨cm, g, .error (.attributeError "NoneType has no attribute password")⟩
    | some au => ⟨cm, g, .ok (M.pack au.password data)⟩
  | .tcp =>
    match cm.cipher with
    | some c => ⟨cm, g, .ok (M.encrypt c.password data)⟩
    | none =>
      match cm.access_user with
      | none => ⟨cm, g, .error (.attributeError "NoneType has no attribute password")⟩
      | some au =>
          ⟨{ cm with cipher := some ⟨au.password⟩ }, g, .ok (M.encrypt au.password data)⟩

/-- `CipherMan.decrypt(data)`.  With no persisted cipher the call goes
through `_init_cipher_and_decrypt_first_data`; its `None` return (the
buffering suspension) then hits `len(data)` in `_record_user_traffic` and
raises `TypeError`.  With a persisted cipher the call records the input
length and returns `self.cipher.decrypt(data)`. -/
def CipherMan.decrypt (M : CipherModel) (cm : CipherMan) (g : GlobalState)
    (data : List Nat) : PyOut (List Nat) :=
  match cm.cipher with
  | none =>
    let r := CipherMan.init_first M cm g data
    match r.ret with
    | .error e => ⟨r.cm, r.g, .error e⟩
    | .ok none =>
        ⟨r.cm, r.g, .error (.typeError "object of type NoneType has no len")⟩
    | .ok (some d) =>
        let (cm, g) := CipherMan.record_user_traffic r.cm r.g d.length
        ⟨cm, g, .ok d⟩
  | some c =>
    let (cm1, g1) :=
      CipherMan.record_user_traffic cm
        { g with fast_decrypts := g.fast_decrypts + 1 } data.length
    ⟨cm1, g1, M.decrypt c.password data⟩

/-- One call made by the I/O loop on a session: `encrypt(d)` or
`decrypt(d)`. -/
inductive CallOp where
  | enc (d : List Nat)
  | dec (d : List Nat)
deriving DecidableEq, Repr

/-- The number of bytes supplied to a call. -/
def CallOp.len : CallOp → Nat
  | .enc d => d.length
  | .dec d => d.length

/-- Whether the call is a decrypt call. -/
def CallOp.isDec : CallOp → Bool
  | .enc _ => false
  | .dec _ => true

/-- Run a sequence of encrypt/decrypt calls on a session, threading the
session and global state (return values go to the I/O loop and are not
needed for the state-evolution claims). -/
def runOps (M : CipherModel) : List CallOp → CipherMan → GlobalState →
    CipherMan × GlobalState
  | [], cm, g => (cm, g)
  | op :: rest, cm, g =>
    let r : PyOut (List Nat) :=
      match op with
      | .enc d => CipherMan.encrypt M cm g d
      | .dec d => CipherMan.decrypt M cm g d
    runOps M rest r.cm r.g

/-- The call sequences covered by the per-call accounting claim: `encrypt`
calls in any session state (DATAGRAM pack, STREAM with the persisted cipher
already in place, and STREAM before its lazy creation), and `decrypt` calls
executed while a persisted cipher is in place (the fast path).  The relation
threads the session and global state through the run so that "a persisted
cipher is in place at the time of the call" refers to the state the call
actually sees; decrypt calls that would take the first-data path are the
one shape excluded (their accounting is stated separately). -/
inductive CoveredOps (M : CipherModel) : CipherMan → GlobalState → List CallOp → Prop where
  | nil (cm : CipherMan) (g : GlobalState) : CoveredOps M cm g []
  | enc (cm : CipherMan) (g : GlobalState) (d : List Nat) (rest : List CallOp) :
      CoveredOps M (CipherMan.encrypt M cm g d).cm (CipherMan.encrypt M cm g d).g rest →
      CoveredOps M cm g (CallOp.enc d :: rest)
  | dec (cm : CipherMan) (g : GlobalState) (d : List Nat) (rest : List CallOp) :
      cm.cipher.isSome = true →
      CoveredOps M (CipherMan.decrypt M cm g d).cm (CipherMan.decrypt M cm g d).g rest →
      CoveredOps M cm g (CallOp.dec d :: rest)

/-- A small concrete cipher capability used to evaluate the development on
explicit inputs: salt and tag are 2 and 1 bytes; a blob authenticates under
password `pw` exactly when its first two bytes are `[pw, pw]`; the special
password 99 makes the cipher fail with a non-MAC `ValueError`. -/
def demoModel : CipherModel where
  SALT_SIZE := 2
  TAG_SIZE := 1
  decrypt := fun pw d =>
    if pw = 99 then .error (.valueError "cipher internal error")
    else if d.take 2 = [pw, pw] then .ok (d.drop 2)
    else .error (.valueError "MAC check failed")
  unpack := fun pw d =>
    if pw = 99 then .error (.valueError "cipher internal error")
    else if d.take 2 = [pw, pw] then .ok (d.drop 2)
    else .error (.valueError "MAC check failed")
  encrypt := fun pw d => pw :: d
  pack := fun pw d => pw :: pw :: d

/-- Demo user A. -/
def uA : SUser := ⟨1, 10, true, 100, 0, 0⟩

/-- Demo user B. -/
def uB : SUser := ⟨2, 20, true, 90, 0, 0⟩

/-- Demo user with `enable = False`. -/
def uDis : SUser := ⟨3, 30, false, 80, 0, 0⟩

/-- Demo user whose cipher raises a non-MAC error under `demoModel`. -/
def uBad : SUser := ⟨4, 99, true, 70, 0, 0⟩

/-- A fresh process-wide state holding the demo users in the directory. -/
def gInit : GlobalState := ⟨[], 0, [uA, uB, uDis, uBad], 0, 0, 0⟩

deriving instance DecidableEq for Except

/-- A fresh two-candidate STREAM session over the demo model. -/
def cmDemoTcp : CipherMan := CipherMan.init demoModel [uA, uB] none .tcp

/-- A fresh two-candidate DATAGRAM session over the demo model. -/
def cmDemoUdp : CipherMan := CipherMan.init demoModel [uA, uB] none .udp

/-- A fresh STREAM session whose second candidate is disabled. -/
def cmDemoDis : CipherMan := CipherMan.init demoModel [uA, uDis] none .tcp

example :
    (CipherMan.decrypt demoModel
      (CipherMan.init demoModel [uA, uB] none .tcp) gInit
      [20, 20, 7, 8, 9]).ret = .ok [7, 8, 9] := by decide

example :
    (CipherMan.decrypt demoModel
      (CipherMan.init demoModel [uA, uB] none .tcp) gInit
      [20, 20, 7, 8, 9]).cm.access_user = some ⟨2, 20, true, 101, 3, 3⟩ := by decide

example :
    (CipherMan.decrypt demoModel
      (CipherMan.init demoModel [uA, uB] none .tcp) gInit [9]).ret
      = .error (.typeError "object of type NoneType has no len") := by decide

/-! ### Helper lemmas -/

theorem seed_last_access (cm : CipherMan) (u : SUser) :
    (CipherMan.seed_last cm u).access_user = cm.access_user := by
  unfold CipherMan.seed_last; split <;> rfl

theorem seed_last_cipher (cm : CipherMan) (u : SUser) :
    (CipherMan.seed_last cm u).cipher = cm.cipher := by
  unfold CipherMan.seed_last; split <;> rfl

theorem seed_last_user_list (cm : CipherMan) (u : SUser) :
    (CipherMan.seed_last cm u).user_list = cm.user_list := by
  unfold CipherMan.seed_last; split <;> rfl

theorem seed_last_ts (cm : CipherMan) (u : SUser) :
    (CipherMan.seed_last cm u).ts_protocol = cm.ts_protocol := by
  unfold CipherMan.seed_last; split <;> rfl

theorem seed_last_buffer (cm : CipherMan) (u : SUser) :
    (CipherMan.seed_last cm u).buffer = cm.buffer := by
  unfold CipherMan.seed_last; split <;> rfl

theorem seed_last_fdl (cm : CipherMan) (u : SUser) :
    (CipherMan.seed_last cm u).first_data_len = cm.first_data_len := by
  unfold CipherMan.seed_last; split <;> rfl

theorem seed_last_of_none (cm : CipherMan) (u : SUser)
    (h : cm.last_access_user = none) :
    (CipherMan.seed_last cm u).last_access_user = some u := by
  unfold CipherMan.seed_last; simp [h]

theorem seed_last_of_some (cm : CipherMan) (u v : SUser)
    (h : cm.last_access_user = some v) :
    (CipherMan.seed_last cm u).last_access_user = some v := by
  unfold CipherMan.seed_last; simp [h]

/-- The trial loop only ever touches the `trials` counter of the global
state: the bloom filter, the transmit counter, the directory and the other
instrumentation counters are left alone. -/
theorem trial_loop_g_stable (M : CipherModel) (ts : TSProtocol) (fd : List Nat) :
    ∀ (us : List SUser) (cm : CipherMan) (g : GlobalState) (cnt : Nat),
    (CipherMan.trial_loop M ts fd us cm g cnt).g.bf = g.bf ∧
    (CipherMan.trial_loop M ts fd us cm g cnt).g.find_calls = g.find_calls ∧
    (CipherMan.trial_loop M ts fd us cm g cnt).g.network_transmit_bytes
      = g.network_transmit_bytes ∧
    (CipherMan.trial_loop M ts fd us cm g cnt).g.directory = g.directory ∧
    (CipherMan.trial_loop M ts fd us cm g cnt).g.fast_decrypts = g.fast_decrypts := by
  intro us
  induction us with
  | nil => intro cm g cnt; exact ⟨rfl, rfl, rfl, rfl, rfl⟩
  | cons u rest ih =>
    intro cm g cnt
    simp only [CipherMan.trial_loop]
    split
    · exact ⟨rfl, rfl, rfl, rfl, rfl⟩
    · split
      · simpa using ih (CipherMan.seed_last cm u)
          { g with trials := g.trials + 1 } (cnt + 1)
      · exact ⟨rfl, rfl, rfl, rfl, rfl⟩

/-- The trial loop never touches the candidate list, the transport flag,
the buffer or the threshold of the session. -/
theorem trial_loop_cm_stable (M : CipherModel) (ts : TSProtocol) (fd : List Nat) :
    ∀ (us : List SUser) (cm : CipherMan) (g : GlobalState) (cnt : Nat),
    (CipherMan.trial_loop M ts fd us cm g cnt).cm.user_list = cm.user_list ∧
    (CipherMan.trial_loop M ts fd us cm g cnt).cm.ts_protocol = cm.ts_protocol ∧
    (CipherMan.trial_loop M ts fd us cm g cnt).cm.buffer = cm.buffer ∧
    (CipherMan.trial_loop M ts fd us cm g cnt).cm.first_data_len
      = cm.first_data_len := by
  intro us
  induction us with
  | nil => intro cm g cnt; exact ⟨rfl, rfl, rfl, rfl⟩
  | cons u rest ih =>
    intro cm g cnt
    simp only [CipherMan.trial_loop]
    split
    · exact ⟨seed_last_user_list cm u, seed_last_ts cm u,
        seed_last_buffer cm u, seed_last_fdl cm u⟩
    · split
      · have h := ih (CipherMan.seed_last cm u)
          { g with trials := g.trials + 1 } (cnt + 1)
        rw [seed_last_user_list, seed_last_ts, seed_last_buffer, seed_last_fdl] at h
        exact h
      · exact ⟨seed_last_user_list cm u, seed_last_ts cm u,
          seed_last_buffer cm u, seed_last_fdl cm u⟩

/-- In UDP mode the trial loop never assigns the persisted cipher field. -/
theorem trial_loop_udp_cipher (M : CipherModel) (fd : List Nat) :
    ∀ (us : List SUser) (cm : CipherMan) (g : GlobalState) (cnt : Nat),
    (CipherMan.trial_loop M .udp fd us cm g cnt).cm.cipher = cm.cipher := by
  intro us
  induction us with
  | nil => intro cm g cnt; rfl
  | cons u rest ih =>
    intro cm g cnt
    simp only [CipherMan.trial_loop]
    split
    · exact seed_last_cipher cm u
    · split
      · rw [ih (CipherMan.seed_last cm u) { g with trials := g.trials + 1 } (cnt + 1)]
        exact seed_last_cipher cm u
      · exact seed_last_cipher cm u

/-- Once `last_access_user` is set, the trial loop keeps it. -/
theorem trial_loop_last_some (M : CipherModel) (ts : TSProtocol) (fd : List Nat) :
    ∀ (us : List SUser) (cm : CipherMan) (g : GlobalState) (cnt : Nat) (v : SUser),
    cm.last_access_user = some v →
    (CipherMan.trial_loop M ts fd us cm g cnt).cm.last_access_user = some v := by
  intro us
  induction us with
  | nil => intro cm g cnt v h; exact h
  | cons u rest ih =>
    intro cm g cnt v h
    simp only [CipherMan.trial_loop]
    split
    · exact seed_last_of_some cm u v h
    · split
      · exact ih (CipherMan.seed_last cm u) { g with trials := g.trials + 1 }
          (cnt + 1) v (seed_last_of_some cm u v h)
      · exact seed_last_of_some cm u v h

/-- On a session that has not tried anyone yet, the trial loop seeds
`last_access_user` with the first iterated candidate. -/
theorem trial_loop_seed_head (M : CipherModel) (ts : TSProtocol) (fd : List Nat)
    (u : SUser) (rest : List SUser) (cm : CipherMan) (g : GlobalState) (cnt : Nat)
    (h : cm.last_access_user = none) :
    (CipherMan.trial_loop M ts fd (u :: rest) cm g cnt).cm.last_access_user
      = some u := by
  simp only [CipherMan.trial_loop]
  split
  · exact seed_last_of_none cm u h
  · split
    · exact trial_loop_last_some M ts fd rest (CipherMan.seed_last cm u)
        { g with trials := g.trials + 1 } (cnt + 1) u (seed_last_of_none cm u h)
    · exact seed_last_of_none cm u h

/-- When every candidate fails with a MAC failure the loop runs to the end:
no user gets bound, no error is raised, and the trial counters advance by
exactly the number of candidates. -/
theorem trial_loop_all_fail (M : CipherModel) (ts : TSProtocol) (fd : List Nat) :
    ∀ (us : List SUser) (cm : CipherMan) (g : GlobalState) (cnt : Nat),
    (∀ u ∈ us, CipherMan.trial M ts u.password fd
        = .error (.valueError "MAC check failed")) →
    (CipherMan.trial_loop M ts fd us cm g cnt).cm.access_user = cm.access_user ∧
    (CipherMan.trial_loop M ts fd us cm g cnt).g.trials = g.trials + us.length ∧
    (CipherMan.trial_loop M ts fd us cm g cnt).cnt = cnt + us.length ∧
    (CipherMan.trial_loop M ts fd us cm g cnt).err = none := by
  intro us
  induction us with
  | nil => intro cm g cnt _; exact ⟨rfl, rfl, rfl, rfl⟩
  | cons u rest ih =>
    intro cm g cnt hfail
    have hu : CipherMan.trial M ts u.password fd
        = .error (.valueError "MAC check failed") := hfail u (List.mem_cons_self u rest)
    have hrest : ∀ v ∈ rest, CipherMan.trial M ts v.password fd
        = .error (.valueError "MAC check failed") :=
      fun v hv => hfail v (List.mem_cons_of_mem u hv)
    have hmac : PyError.isMacFail (.valueError "MAC check failed") = true := by decide
    obtain ⟨h1, h2, h3, h4⟩ := ih (CipherMan.seed_last cm u)
      { g with trials := g.trials + 1 } (cnt + 1) hrest
    rw [seed_last_access] at h1
    simp only [CipherMan.trial_loop, hu, hmac, if_true, List.length_cons]
    refine ⟨h1, ?_, ?_, h4⟩
    · rw [h2]; simp; omega
    · rw [h3]; omega

/-- A blob whose salt is already known makes `_find_access_user` raise the
replay error at once: no state is mutated beyond the instrumentation
counter and no trial is attempted. -/
theorem find_access_user_replay (M : CipherModel) (cm : CipherMan)
    (g : GlobalState) (d : List Nat) (h : d.take M.SALT_SIZE ∈ g.bf) :
    CipherMan.find_access_user M cm g d =
      ⟨cm, { g with find_calls := g.find_calls + 1 }, 0,
        some (.runtimeError "repeated salt founded!")⟩ := by
  unfold CipherMan.find_access_user
  rw [if_pos h]

/-- A blob with a fresh salt leaves the bloom filter with exactly that salt
added, whatever the trial loop then does. -/
theorem find_access_user_fresh_bf (M : CipherModel) (cm : CipherMan)
    (g : GlobalState) (d : List Nat) (h : d.take M.SALT_SIZE ∉ g.bf) :
    (CipherMan.find_access_user M cm g d).g.bf = d.take M.SALT_SIZE :: g.bf := by
  unfold CipherMan.find_access_user
  rw [if_neg h]
  exact (trial_loop_g_stable M cm.ts_protocol d cm.user_list cm
    { g with find_calls := g.find_calls + 1,
             bf := d.take M.SALT_SIZE :: g.bf } 0).1

/-! ### Claim theorems -/

/-- C1: for every salt `s`, once `_find_access_user` has processed a blob
whose leading `SALT_SIZE` bytes are `s` — whether identification then
succeeds or fails — the salt now sits in the process-wide replay filter
exactly once; any later identification of a blob with the same salt fails
with the replay `RuntimeError` before any trial decryption is attempted
(trial count 0, `trials` instrumentation untouched, no state mutated beyond
the call counter); and no later identification ever inserts `s` again. -/
theorem find_access_user_replay_guard (M : CipherModel) (cm cm2 : CipherMan)
    (g g2 : GlobalState) (d d2 s : List Nat)
    (hs : s = d.take M.SALT_SIZE) (hfresh : s ∉ g.bf)
    (hs2 : s = d2.take M.SALT_SIZE) (hlater : s ∈ g2.bf) :
    (CipherMan.find_access_user M cm g d).g.bf.count s = 1 ∧
    s ∈ (CipherMan.find_access_user M cm g d).g.bf ∧
    CipherMan.find_access_user M cm2 g2 d2 =
      ⟨cm2, { g2 with find_calls := g2.find_calls + 1 }, 0,
        some (.runtimeError "repeated salt founded!")⟩ ∧
    (∀ (cm3 : CipherMan) (g3 : GlobalState) (d3 : List Nat), s ∈ g3.bf →
      (CipherMan.find_access_user M cm3 g3 d3).g.bf.count s = g3.bf.count s) := by
  have hbf : (CipherMan.find_access_user M cm g d).g.bf = s :: g.bf := by
    rw [hs] at hfresh ⊢
    exact find_access_user_fresh_bf M cm g d hfresh
  refine ⟨?_, ?_, ?_, ?_⟩
  · rw [hbf, List.count_cons_self, List.count_eq_zero.mpr hfresh]
  · rw [hbf]; exact List.mem_cons_self s g.bf
  · rw [hs2] at hlater
    exact find_access_user_replay M cm2 g2 d2 hlater
  · intro cm3 g3 d3 hmem
    by_cases h3 : d3.take M.SALT_SIZE ∈ g3.bf
    · rw [find_access_user_replay M cm3 g3 d3 h3]
    · rw [find_access_user_fresh_bf M cm3 g3 d3 h3]
      have hne : d3.take M.SALT_SIZE ≠ s := by
        intro he; rw [he] at h3; exact h3 hmem
      rw [List.count_cons_of_ne (fun he => hne he.symm)]

/-- Witness for C1 at a concrete salt and two concrete blobs. -/
theorem find_access_user_replay_guard_witness :
    (([5, 5] : List Nat) = ([5, 5, 1, 2, 3] : List Nat).take demoModel.SALT_SIZE ∧
      ([5, 5] : List Nat) ∉ gInit.bf ∧
      ([5, 5] : List Nat) = ([5, 5, 9, 9, 9] : List Nat).take demoModel.SALT_SIZE ∧
      ([5, 5] : List Nat) ∈
        (CipherMan.find_access_user demoModel
          (CipherMan.init demoModel [uA, uB] none .tcp) gInit [5, 5, 1, 2, 3]).g.bf) ∧
    ((CipherMan.find_access_user demoModel
        (CipherMan.init demoModel [uA, uB] none .tcp) gInit [5, 5, 1, 2, 3]).g.bf.count
        [5, 5] = 1 ∧
      ([5, 5] : List Nat) ∈
        (CipherMan.find_access_user demoModel
          (CipherMan.init demoModel [uA, uB] none .tcp) gInit [5, 5, 1, 2, 3]).g.bf ∧
      CipherMan.find_access_user demoModel
          (CipherMan.init demoModel [uA, uB] none .tcp)
          (CipherMan.find_access_user demoModel
            (CipherMan.init demoModel [uA, uB] none .tcp) gInit [5, 5, 1, 2, 3]).g
          [5, 5, 9, 9, 9] =
        ⟨CipherMan.init demoModel [uA, uB] none .tcp,
          { (CipherMan.find_access_user demoModel
              (CipherMan.init demoModel [uA, uB] none .tcp) gInit [5, 5, 1, 2, 3]).g with
            find_calls :=
              (CipherMan.find_access_user demoModel
                (CipherMan.init demoModel [uA, uB] none .tcp) gInit
                [5, 5, 1, 2, 3]).g.find_calls + 1 }, 0,
          some (.runtimeError "repeated salt founded!")⟩ ∧
      (∀ (cm3 : CipherMan) (g3 : GlobalState) (d3 : List Nat), ([5, 5] : List Nat) ∈ g3.bf →
        (CipherMan.find_access_user demoModel cm3 g3 d3).g.bf.count [5, 5]
          = g3.bf.count [5, 5])) :=
  ⟨⟨by decide, by decide, by decide, by decide⟩,
    find_access_user_replay_guard demoModel
      (CipherMan.init demoModel [uA, uB] none .tcp)
      (CipherMan.init demoModel [uA, uB] none .tcp) gInit
      (CipherMan.find_access_user demoModel
        (CipherMan.init demoModel [uA, uB] none .tcp) gInit [5, 5, 1, 2, 3]).g
      [5, 5, 1, 2, 3] [5, 5, 9, 9, 9] [5, 5]
      (by decide) (by decide) (by decide) (by decide)⟩

/-- C2 (code-bug evaluation): on a fresh STREAM session,
`_init_cipher_and_decrypt_first_data` does buffer a short feed and return
the no-data signal without invoking identification, but `decrypt` — the
entry point the I/O loop calls — then passes that `None` to `len()` and
raises `TypeError`; the same happens on every further short call, here shown
for a second one that appends to the same pending buffer. -/
theorem decrypt_short_first_data_typeError :
    (CipherMan.init_first demoModel
        (CipherMan.init demoModel [uA, uB] none .tcp) gInit [9]).ret = .ok none ∧
    (CipherMan.init_first demoModel
        (CipherMan.init demoModel [uA, uB] none .tcp) gInit [9]).cm.buffer = [9] ∧
    (CipherMan.decrypt demoModel
        (CipherMan.init demoModel [uA, uB] none .tcp) gInit [9]).ret
      = .error (.typeError "object of type NoneType has no len") ∧
    (CipherMan.decrypt demoModel
        (CipherMan.init demoModel [uA, uB] none .tcp) gInit [9]).g = gInit ∧
    (CipherMan.decrypt demoModel
        (CipherMan.decrypt demoModel
          (CipherMan.init demoModel [uA, uB] none .tcp) gInit [9]).cm
        gInit [8]).cm.buffer = [9, 8] ∧
    (CipherMan.decrypt demoModel
        (CipherMan.decrypt demoModel
          (CipherMan.init demoModel [uA, uB] none .tcp) gInit [9]).cm
        gInit [8]).ret
      = .error (.typeError "object of type NoneType has no len") := by
  decide

/-- C3: when every candidate's trial decryption fails the integrity check,
`_find_access_user` attempts exactly `len(user_list)` trials (the local
counter `cnt` and the `trials` instrumentation both advance by the list
length), no user gets bound, and the first-data call fails with the
authentication `RuntimeError`. -/
theorem auth_failed_after_all_trials (M : CipherModel) (cm : CipherMan)
    (g : GlobalState) (data : List Nat)
    (hub : cm.access_user = none)
    (hlen : ¬ (data.length + cm.buffer.length < cm.first_data_len))
    (hfresh : (cm.buffer ++ data).take M.SALT_SIZE ∉ g.bf)
    (hfail : ∀ u ∈ cm.user_list,
      CipherMan.trial M cm.ts_protocol u.password (cm.buffer ++ data)
        = .error (.valueError "MAC check failed")) :
    (CipherMan.find_access_user M { cm with buffer := [] } g (cm.buffer ++ data)).cnt
      = cm.user_list.length ∧
    (CipherMan.init_first M cm g data).ret
      = .error (.runtimeError "没有找到合法的用户") ∧
    (CipherMan.init_first M cm g data).g.trials = g.trials + cm.user_list.length := by
  obtain ⟨ul, acc, ts, cp, fdt, buf, last, fdl⟩ := cm
  dsimp only at hub hlen hfresh hfail ⊢
  subst hub
  have hloop := trial_loop_all_fail M ts (buf ++ data) ul
    ⟨ul, none, ts, cp, fdt, [], last, fdl⟩
    { g with find_calls := g.find_calls + 1,
             bf := (buf ++ data).take M.SALT_SIZE :: g.bf } 0 hfail
  dsimp only at hloop
  have hfind : CipherMan.find_access_user M ⟨ul, none, ts, cp, fdt, [], last, fdl⟩ g
      (buf ++ data)
      = CipherMan.trial_loop M ts (buf ++ data) ul
        ⟨ul, none, ts, cp, fdt, [], last, fdl⟩
        { g with find_calls := g.find_calls + 1,
                 bf := (buf ++ data).take M.SALT_SIZE :: g.bf } 0 := by
    unfold CipherMan.find_access_user
    rw [if_neg hfresh]
  have hinit : CipherMan.init_first M ⟨ul, none, ts, cp, fdt, buf, last, fdl⟩ g data
      = CipherMan.after_find
          (CipherMan.find_access_user M ⟨ul, none, ts, cp, fdt, [], last, fdl⟩ g
            (buf ++ data)).cm
          (CipherMan.find_access_user M ⟨ul, none, ts, cp, fdt, [], last, fdl⟩ g
            (buf ++ data)).g := by
    rw [CipherMan.init_first, if_neg hlen]
    dsimp only
    rw [hfind, hloop.2.2.2]
  have hacc : (CipherMan.find_access_user M ⟨ul, none, ts, cp, fdt, [], last, fdl⟩ g
      (buf ++ data)).cm.access_user = none := by
    rw [hfind, hloop.1]
  refine ⟨?_, ?_, ?_⟩
  · rw [hfind, hloop.2.2.1]; simp
  · rw [hinit]
    simp only [CipherMan.after_find, hacc]
  · rw [hinit]
    simp only [CipherMan.after_find, hacc]
    rw [hfind, hloop.2.1]

/-- Witness for C3: a blob failing both demo candidates' integrity checks is
tried exactly twice and yields the authentication error. -/
theorem auth_failed_after_all_trials_witness :
    (cmDemoTcp.access_user = none ∧
      ¬ (([1, 2, 3, 4, 5] : List Nat).length + cmDemoTcp.buffer.length
          < cmDemoTcp.first_data_len) ∧
      (cmDemoTcp.buffer ++ [1, 2, 3, 4, 5]).take demoModel.SALT_SIZE ∉ gInit.bf ∧
      (∀ u ∈ cmDemoTcp.user_list,
        CipherMan.trial demoModel cmDemoTcp.ts_protocol u.password
          (cmDemoTcp.buffer ++ [1, 2, 3, 4, 5])
          = .error (.valueError "MAC check failed"))) ∧
    ((CipherMan.find_access_user demoModel { cmDemoTcp with buffer := [] } gInit
        (cmDemoTcp.buffer ++ [1, 2, 3, 4, 5])).cnt = cmDemoTcp.user_list.length ∧
      (CipherMan.init_first demoModel cmDemoTcp gInit [1, 2, 3, 4, 5]).ret
        = .error (.runtimeError "没有找到合法的用户") ∧
      (CipherMan.init_first demoModel cmDemoTcp gInit [1, 2, 3, 4, 5]).g.trials
        = gInit.trials + cmDemoTcp.user_list.length) :=
  ⟨⟨by decide, by decide, by decide, by decide⟩,
    auth_failed_after_all_trials demoModel cmDemoTcp gInit [1, 2, 3, 4, 5]
      (by decide) (by decide) (by decide) (by decide)⟩

/-- C4: inside the trial loop, a candidate whose trial fails with
`ValueError("MAC check failed")` is skipped — the loop continues with the
remaining candidates (after seeding `last_access_user` and counting the
attempt) — whereas a trial failure of any other kind ends the loop at once
with that error and no further candidate is tried. -/
theorem trial_failure_discrimination (M : CipherModel) (ts : TSProtocol)
    (fd : List Nat) (u : SUser) (rest : List SUser) (cm : CipherMan)
    (g : GlobalState) (cnt : Nat) (e : PyError)
    (herr : CipherMan.trial M ts u.password fd = .error e) :
    (e.isMacFail = true →
      CipherMan.trial_loop M ts fd (u :: rest) cm g cnt =
        CipherMan.trial_loop M ts fd rest (CipherMan.seed_last cm u)
          { g with trials := g.trials + 1 } (cnt + 1)) ∧
    (e.isMacFail = false →
      CipherMan.trial_loop M ts fd (u :: rest) cm g cnt =
        ⟨CipherMan.seed_last cm u, { g with trials := g.trials + 1 },
          cnt + 1, some e⟩) := by
  constructor
  · intro hm
    simp only [CipherMan.trial_loop, herr, hm, if_true]
  · intro hm
    simp only [CipherMan.trial_loop, herr, hm, Bool.false_eq_true, if_false]

/-- Witness for C4, applied once to a MAC failure (candidate skipped, loop
continues) and once to a non-MAC failure (error propagates, loop ends). -/
theorem trial_failure_discrimination_witness :
    ((CipherMan.trial demoModel .tcp uA.password [1, 2, 3, 4, 5]
        = .error (.valueError "MAC check failed")) ∧
      ((PyError.valueError "MAC check failed").isMacFail = true →
        CipherMan.trial_loop demoModel .tcp [1, 2, 3, 4, 5] [uA, uB] cmDemoTcp gInit 0 =
          CipherMan.trial_loop demoModel .tcp [1, 2, 3, 4, 5] [uB]
            (CipherMan.seed_last cmDemoTcp uA)
            { gInit with trials := gInit.trials + 1 } 1)) ∧
    ((CipherMan.trial demoModel .tcp uBad.password [1, 2, 3, 4, 5]
        = .error (.valueError "cipher internal error")) ∧
      ((PyError.valueError "cipher internal error").isMacFail = false →
        CipherMan.trial_loop demoModel .tcp [1, 2, 3, 4, 5] [uBad, uA] cmDemoTcp gInit 0 =
          ⟨CipherMan.seed_last cmDemoTcp uBad,
            { gInit with trials := gInit.trials + 1 }, 1,
            some (.valueError "cipher internal error")⟩)) :=
  ⟨⟨by decide,
      (trial_failure_discrimination demoModel .tcp [1, 2, 3, 4, 5] uA [uB]
        cmDemoTcp gInit 0 (.valueError "MAC check failed") (by decide)).1⟩,
    ⟨by decide,
      (trial_failure_discrimination demoModel .tcp [1, 2, 3, 4, 5] uBad [uA]
        cmDemoTcp gInit 0 (.valueError "cipher internal error") (by decide)).2⟩⟩

/-- C6: when identification cryptographically matches a candidate (a user
is bound and `_find_access_user` raised nothing) whose `enable` flag is
false, the first-data call — and the `decrypt` call wrapping it — fails
with the disabled-user `RuntimeError`, and the decrypted plaintext is not
returned to the caller. -/
theorem disabled_user_rejected (M : CipherModel) (cm : CipherMan)
    (g : GlobalState) (data : List Nat) (au : SUser)
    (hub : cm.access_user = none)
    (hcip : cm.cipher = none)
    (hlen : ¬ (data.length + cm.buffer.length < cm.first_data_len))
    (hmatch : (CipherMan.find_access_user M { cm with buffer := [] } g
        (cm.buffer ++ data)).cm.access_user = some au)
    (hnoerr : (CipherMan.find_access_user M { cm with buffer := [] } g
        (cm.buffer ++ data)).err = none)
    (hdis : au.enable = false) :
    (CipherMan.init_first M cm g data).ret
      = .error (.runtimeError "用户 enable = False") ∧
    (∀ pt, (CipherMan.init_first M cm g data).ret ≠ .ok pt) ∧
    (CipherMan.decrypt M cm g data).ret
      = .error (.runtimeError "用户 enable = False") ∧
    (∀ pt, (CipherMan.decrypt M cm g data).ret ≠ .ok pt) := by
  obtain ⟨ul, acc, ts, cp, fdt, buf, last, fdl⟩ := cm
  dsimp only at hub hcip hlen hmatch hnoerr ⊢
  subst hub
  subst hcip
  have hinit : CipherMan.init_first M ⟨ul, none, ts, none, fdt, buf, last, fdl⟩ g data
      = CipherMan.after_find
          (CipherMan.find_access_user M ⟨ul, none, ts, none, fdt, [], last, fdl⟩ g
            (buf ++ data)).cm
          (CipherMan.find_access_user M ⟨ul, none, ts, none, fdt, [], last, fdl⟩ g
            (buf ++ data)).g := by
    rw [CipherMan.init_first, if_neg hlen]
    dsimp only
    rw [hnoerr]
  have hret : (CipherMan.init_first M ⟨ul, none, ts, none, fdt, buf, last, fdl⟩ g
      data).ret = .error (.runtimeError "用户 enable = False") := by
    rw [hinit]
    simp [CipherMan.after_find, hmatch, hdis]
  have hdec : (CipherMan.decrypt M ⟨ul, none, ts, none, fdt, buf, last, fdl⟩ g
      data).ret = .error (.runtimeError "用户 enable = False") := by
    simp only [CipherMan.decrypt]
    rw [hret]
  refine ⟨hret, ?_, hdec, ?_⟩
  · intro pt; rw [hret]; simp
  · intro pt; rw [hdec]; simp

/-- Witness for C6: the demo blob authenticating under the disabled user. -/
theorem disabled_user_rejected_witness :
    (cmDemoDis.access_user = none ∧
      cmDemoDis.cipher = none ∧
      ¬ (([30, 30, 1, 2, 3] : List Nat).length + cmDemoDis.buffer.length
          < cmDemoDis.first_data_len) ∧
      (CipherMan.find_access_user demoModel { cmDemoDis with buffer := [] } gInit
        (cmDemoDis.buffer ++ [30, 30, 1, 2, 3])).cm.access_user = some uDis ∧
      (CipherMan.find_access_user demoModel { cmDemoDis with buffer := [] } gInit
        (cmDemoDis.buffer ++ [30, 30, 1, 2, 3])).err = none ∧
      uDis.enable = false) ∧
    ((CipherMan.init_first demoModel cmDemoDis gInit [30, 30, 1, 2, 3]).ret
        = .error (.runtimeError "用户 enable = False") ∧
      (∀ pt, (CipherMan.init_first demoModel cmDemoDis gInit [30, 30, 1, 2, 3]).ret
        ≠ .ok pt) ∧
      (CipherMan.decrypt demoModel cmDemoDis gInit [30, 30, 1, 2, 3]).ret
        = .error (.runtimeError "用户 enable = False") ∧
      (∀ pt, (CipherMan.decrypt demoModel cmDemoDis gInit [30, 30, 1, 2, 3]).ret
        ≠ .ok pt)) :=
  ⟨⟨by decide, by decide, by decide, by decide, by decide, by decide⟩,
    disabled_user_rejected demoModel cmDemoDis gInit [30, 30, 1, 2, 3] uDis
      (by decide) (by decide) (by decide) (by decide) (by decide) (by decide)⟩

/-- C5 (code-bug evaluation): a DATAGRAM session that is already bound
(`access_user` set by the first packet) never re-runs identification: the
second `decrypt` call skips `_find_access_user` entirely (call and trial
counters unchanged), builds no fresh cipher, never unpacks the supplied
bytes, and instead returns the stale `_first_data` plaintext of the first
packet — here `[7]` although the supplied packet unpacks to `[8, 9]` under
the bound user's own credential. -/
theorem udp_bound_decrypt_returns_stale :
    (CipherMan.decrypt demoModel cmDemoUdp gInit [20, 20, 7]).ret = .ok [7] ∧
    (CipherMan.decrypt demoModel cmDemoUdp gInit
        [20, 20, 7]).cm.access_user.isSome = true ∧
    (CipherMan.decrypt demoModel cmDemoUdp gInit [20, 20, 7]).cm.cipher = none ∧
    (CipherMan.decrypt demoModel
        (CipherMan.decrypt demoModel cmDemoUdp gInit [20, 20, 7]).cm
        (CipherMan.decrypt demoModel cmDemoUdp gInit [20, 20, 7]).g
        [20, 20, 8, 9]).ret = .ok [7] ∧
    demoModel.unpack uB.password [20, 20, 8, 9] = .ok [8, 9] ∧
    (CipherMan.decrypt demoModel
        (CipherMan.decrypt demoModel cmDemoUdp gInit [20, 20, 7]).cm
        (CipherMan.decrypt demoModel cmDemoUdp gInit [20, 20, 7]).g
        [20, 20, 8, 9]).ret ≠ .ok [8, 9] ∧
    (CipherMan.decrypt demoModel
        (CipherMan.decrypt demoModel cmDemoUdp gInit [20, 20, 7]).cm
        (CipherMan.decrypt demoModel cmDemoUdp gInit [20, 20, 7]).g
        [20, 20, 8, 9]).g.find_calls
      = (CipherMan.decrypt demoModel cmDemoUdp gInit [20, 20, 7]).g.find_calls ∧
    (CipherMan.decrypt demoModel
        (CipherMan.decrypt demoModel cmDemoUdp gInit [20, 20, 7]).cm
        (CipherMan.decrypt demoModel cmDemoUdp gInit [20, 20, 7]).g
        [20, 20, 8, 9]).g.trials
      = (CipherMan.decrypt demoModel cmDemoUdp gInit [20, 20, 7]).g.trials := by
  decide

/-- Counterexample to C8 as stated: on a bound DATAGRAM session, a decrypt
call supplying 6 bytes advances the bound user's counters and the
process-wide counter by 2 (the length of the stale stored plaintext), not
by the 6 bytes the call transferred. -/
theorem udp_bound_decrypt_traffic_mismatch :
    ((CipherMan.decrypt demoModel cmDemoUdp gInit
        [10, 10, 2, 3]).cm.access_user.map SUser.upload_traffic = some 2) ∧
    ((CipherMan.decrypt demoModel cmDemoUdp gInit
        [10, 10, 2, 3]).cm.access_user.map SUser.download_traffic = some 2) ∧
    ((CipherMan.decrypt demoModel
        (CipherMan.decrypt demoModel cmDemoUdp gInit [10, 10, 2, 3]).cm
        (CipherMan.decrypt demoModel cmDemoUdp gInit [10, 10, 2, 3]).g
        [10, 10, 50, 60, 70, 80]).cm.access_user.map SUser.upload_traffic
      = some 4) ∧
    ((CipherMan.decrypt demoModel
        (CipherMan.decrypt demoModel cmDemoUdp gInit [10, 10, 2, 3]).cm
        (CipherMan.decrypt demoModel cmDemoUdp gInit [10, 10, 2, 3]).g
        [10, 10, 50, 60, 70, 80]).cm.access_user.map SUser.download_traffic
      = some 4) ∧
    ((CipherMan.decrypt demoModel
        (CipherMan.decrypt demoModel cmDemoUdp gInit [10, 10, 2, 3]).cm
        (CipherMan.decrypt demoModel cmDemoUdp gInit [10, 10, 2, 3]).g
        [10, 10, 50, 60, 70, 80]).g.network_transmit_bytes
      = (CipherMan.decrypt demoModel cmDemoUdp gInit
          [10, 10, 2, 3]).g.network_transmit_bytes + 2) ∧
    ([10, 10, 50, 60, 70, 80] : List Nat).length = 6 ∧
    (2 : Nat) ≠ 6 := by
  decide

/-- On a session with a persisted cipher and a bound user, `encrypt`
records the supplied length on both user directions and on the
process-wide counter and encrypts with the persisted cipher. -/
theorem encrypt_bound_stream (M : CipherModel) (cm : CipherMan)
    (g : GlobalState) (d : List Nat) (c : SCipher) (au : SUser)
    (hts : cm.ts_protocol = .tcp) (hc : cm.cipher = some c)
    (ha : cm.access_user = some au) :
    CipherMan.encrypt M cm g d =
      ⟨{ cm with access_user := some (au.record_traffic d.length d.length) },
        { g with network_transmit_bytes := g.network_transmit_bytes + d.length },
        .ok (M.encrypt c.password d)⟩ := by
  obtain ⟨ul, acc, ts, cp, fdt, buf, last, fdl⟩ := cm
  dsimp only at hts hc ha ⊢
  subst hts; subst hc; subst ha
  rfl

/-- On a session with a persisted cipher and a bound user, `decrypt`
records the supplied length the same way and returns the persisted
cipher's decryption of the supplied bytes. -/
theorem decrypt_bound_stream (M : CipherModel) (cm : CipherMan)
    (g : GlobalState) (d : List Nat) (c : SCipher) (au : SUser)
    (hc : cm.cipher = some c) (ha : cm.access_user = some au) :
    CipherMan.decrypt M cm g d =
      ⟨{ cm with access_user := some (au.record_traffic d.length d.length) },
        { g with network_transmit_bytes := g.network_transmit_bytes + d.length,
                 fast_decrypts := g.fast_decrypts + 1 },
        M.decrypt c.password d⟩ := by
  obtain ⟨ul, acc, ts, cp, fdt, buf, last, fdl⟩ := cm
  dsimp only at hc ha ⊢
  subst hc; subst ha
  rfl

/-- Inversion for a covered run starting with an encrypt call. -/
theorem coveredOps_cons_enc (M : CipherModel) (cm : CipherMan)
    (g : GlobalState) (d : List Nat) (rest : List CallOp)
    (h : CoveredOps M cm g (CallOp.enc d :: rest)) :
    CoveredOps M (CipherMan.encrypt M cm g d).cm
      (CipherMan.encrypt M cm g d).g rest := by
  cases h
  assumption

/-- Inversion for a covered run starting with a decrypt call: the call was
executed with a persisted cipher in place. -/
theorem coveredOps_cons_dec (M : CipherModel) (cm : CipherMan)
    (g : GlobalState) (d : List Nat) (rest : List CallOp)
    (h : CoveredOps M cm g (CallOp.dec d :: rest)) :
    cm.cipher.isSome = true ∧
    CoveredOps M (CipherMan.decrypt M cm g d).cm
      (CipherMan.decrypt M cm g d).g rest := by
  cases h
  exact ⟨by assumption, by assumption⟩

/-- On any bound session — DATAGRAM, STREAM with the persisted cipher
present, or STREAM before its lazy creation — `encrypt` records exactly
the supplied byte count on both user directions and on the process-wide
counter. -/
theorem encrypt_bound_records (M : CipherModel) (cm : CipherMan)
    (g : GlobalState) (d : List Nat) (au : SUser)
    (ha : cm.access_user = some au) :
    (CipherMan.encrypt M cm g d).cm.access_user
      = some (au.record_traffic d.length d.length) ∧
    (CipherMan.encrypt M cm g d).g.network_transmit_bytes
      = g.network_transmit_bytes + d.length := by
  obtain ⟨ul, acc, ts, cp, fdt, buf, last, fdl⟩ := cm
  dsimp only at ha ⊢
  subst ha
  cases ts <;> cases cp <;> exact ⟨rfl, rfl⟩

/-- A `decrypt` call that takes the first-data path and returns plaintext
`pt` records exactly `pt.length` — the length of the plaintext it returns,
not of the bytes supplied — on both user directions and on the
process-wide counter. -/
theorem decrypt_first_data_records (M : CipherModel) (cm : CipherMan)
    (g : GlobalState) (d pt : List Nat) (au : SUser)
    (hc : cm.cipher = none)
    (hret : (CipherMan.init_first M cm g d).ret = .ok (some pt))
    (hau : (CipherMan.init_first M cm g d).cm.access_user = some au) :
    (CipherMan.decrypt M cm g d).ret = .ok pt ∧
    (CipherMan.decrypt M cm g d).cm.access_user
      = some (au.record_traffic pt.length pt.length) ∧
    (CipherMan.decrypt M cm g d).g.network_transmit_bytes
      = (CipherMan.init_first M cm g d).g.network_transmit_bytes + pt.length := by
  obtain ⟨ul, acc, ts, cp, fdt, buf, last, fdl⟩ := cm
  dsimp only at hc hret hau ⊢
  subst hc
  unfold CipherMan.decrypt
  dsimp only
  rw [hret]
  dsimp only
  unfold CipherMan.record_user_traffic
  rw [hau]
  exact ⟨rfl, rfl, rfl⟩

/-- Over any covered run from a bound session, the user's inbound and
outbound counters and the process-wide counter each grow by the sum of the
supplied byte counts. -/
theorem runOps_covered_sum (M : CipherModel) :
    ∀ (ops : List CallOp) (cm : CipherMan) (g : GlobalState) (au : SUser),
    cm.access_user = some au → CoveredOps M cm g ops →
    (runOps M ops cm g).1.access_user
      = some { au with
          upload_traffic := au.upload_traffic + (ops.map CallOp.len).sum,
          download_traffic := au.download_traffic + (ops.map CallOp.len).sum } ∧
    (runOps M ops cm g).2.network_transmit_bytes
      = g.network_transmit_bytes + (ops.map CallOp.len).sum := by
  intro ops
  induction ops with
  | nil =>
    intro cm g au ha _
    simp [runOps, ha]
  | cons op rest ih =>
    intro cm g au ha hcov
    cases op with
    | enc d =>
      have hrest := coveredOps_cons_enc M cm g d rest hcov
      have he := encrypt_bound_records M cm g d au ha
      have hrec := ih (CipherMan.encrypt M cm g d).cm (CipherMan.encrypt M cm g d).g
        (au.record_traffic d.length d.length) he.1 hrest
      simp only [runOps]
      constructor
      · rw [hrec.1]
        simp [SUser.record_traffic, CallOp.len, Nat.add_assoc]
      · rw [hrec.2, he.2]
        simp [CallOp.len, Nat.add_assoc]
    | dec d =>
      obtain ⟨hsome, hrest⟩ := coveredOps_cons_dec M cm g d rest hcov
      obtain ⟨c, hc⟩ := Option.isSome_iff_exists.mp hsome
      have hd := decrypt_bound_stream M cm g d c au hc ha
      have hrec := ih (CipherMan.decrypt M cm g d).cm (CipherMan.decrypt M cm g d).g
        (au.record_traffic d.length d.length) (by rw [hd]) hrest
      simp only [runOps]
      constructor
      · rw [hrec.1]
        simp [SUser.record_traffic, CallOp.len, Nat.add_assoc]
      · rw [hrec.2, hd]
        simp [CallOp.len, Nat.add_assoc]

/-- C8 (amended): on a bound session, every covered call — any `encrypt`
call (DATAGRAM pack, STREAM with the persisted cipher present, or STREAM
before its lazy creation) and every `decrypt` call executed with a
persisted cipher — records exactly the supplied byte count, so N covered
calls supplying `b1..bN` bytes grow the bound user's inbound and outbound
counters and the process-wide transmitted-bytes counter each by exactly
`b1 + ... + bN`, the same value for both directions of each call; and a
`decrypt` call that takes the first-data path (every bound DATAGRAM
decrypt) instead records the length of the plaintext it returns, not of
the bytes supplied. -/
theorem traffic_counters_sum (M : CipherModel) (ops : List CallOp)
    (cm : CipherMan) (g : GlobalState) (au : SUser)
    (cm2 : CipherMan) (g2 : GlobalState) (d2 pt2 : List Nat) (au2 : SUser)
    (ha : cm.access_user = some au)
    (hcov : CoveredOps M cm g ops)
    (hc2 : cm2.cipher = none)
    (hret2 : (CipherMan.init_first M cm2 g2 d2).ret = .ok (some pt2))
    (hau2 : (CipherMan.init_first M cm2 g2 d2).cm.access_user = some au2) :
    ((runOps M ops cm g).1.access_user
        = some { au with
            upload_traffic := au.upload_traffic + (ops.map CallOp.len).sum,
            download_traffic := au.download_traffic + (ops.map CallOp.len).sum } ∧
      (runOps M ops cm g).2.network_transmit_bytes
        = g.network_transmit_bytes + (ops.map CallOp.len).sum) ∧
    ((CipherMan.decrypt M cm2 g2 d2).ret = .ok pt2 ∧
      (CipherMan.decrypt M cm2 g2 d2).cm.access_user
        = some (au2.record_traffic pt2.length pt2.length) ∧
      (CipherMan.decrypt M cm2 g2 d2).g.network_transmit_bytes
        = (CipherMan.init_first M cm2 g2 d2).g.network_transmit_bytes + pt2.length) :=
  ⟨runOps_covered_sum M ops cm g au ha hcov,
    decrypt_first_data_records M cm2 g2 d2 pt2 au2 hc2 hret2 hau2⟩

/-- Witness for C8 (amended), applied twice: once on a bound STREAM session
starting with no persisted cipher (the first encrypt creates it lazily and
the following decrypt runs on the fast path), paired with a bound DATAGRAM
first-data decrypt for the second conjunct; and once on a bound DATAGRAM
session whose calls are all encrypts. -/
theorem traffic_counters_sum_witness :
    ((({ cmDemoTcp with access_user := some uA } : CipherMan).access_user = some uA ∧
        CoveredOps demoModel { cmDemoTcp with access_user := some uA } gInit
          [.enc [1, 2], .dec [3, 4, 5], .enc [6, 7, 8, 9]] ∧
        cmDemoUdp.cipher = none ∧
        (CipherMan.init_first demoModel cmDemoUdp gInit [20, 20, 7]).ret
          = .ok (some [7]) ∧
        (CipherMan.init_first demoModel cmDemoUdp gInit [20, 20, 7]).cm.access_user
          = some ⟨2, 20, true, 101, 0, 0⟩) ∧
      (((runOps demoModel [.enc [1, 2], .dec [3, 4, 5], .enc [6, 7, 8, 9]]
            { cmDemoTcp with access_user := some uA } gInit).1.access_user
          = some { uA with
              upload_traffic := uA.upload_traffic
                + (([.enc [1, 2], .dec [3, 4, 5], .enc [6, 7, 8, 9]]
                    : List CallOp).map CallOp.len).sum,
              download_traffic := uA.download_traffic
                + (([.enc [1, 2], .dec [3, 4, 5], .enc [6, 7, 8, 9]]
                    : List CallOp).map CallOp.len).sum } ∧
        (runOps demoModel [.enc [1, 2], .dec [3, 4, 5], .enc [6, 7, 8, 9]]
            { cmDemoTcp with access_user := some uA } gInit).2.network_transmit_bytes
          = gInit.network_transmit_bytes
            + (([.enc [1, 2], .dec [3, 4, 5], .enc [6, 7, 8, 9]]
                : List CallOp).map CallOp.len).sum) ∧
      ((CipherMan.decrypt demoModel cmDemoUdp gInit [20, 20, 7]).ret = .ok [7] ∧
        (CipherMan.decrypt demoModel cmDemoUdp gInit [20, 20, 7]).cm.access_user
          = some (SUser.record_traffic ⟨2, 20, true, 101, 0, 0⟩
              ([7] : List Nat).length ([7] : List Nat).length) ∧
        (CipherMan.decrypt demoModel cmDemoUdp gInit
            [20, 20, 7]).g.network_transmit_bytes
          = (CipherMan.init_first demoModel cmDemoUdp gInit
              [20, 20, 7]).g.network_transmit_bytes + ([7] : List Nat).length))) ∧
    ((({ cmDemoUdp with access_user := some uA } : CipherMan).access_user = some uA ∧
        CoveredOps demoModel { cmDemoUdp with access_user := some uA } gInit
          [.enc [1, 2], .enc [3]]) ∧
      ((runOps demoModel [.enc [1, 2], .enc [3]]
            { cmDemoUdp with access_user := some uA } gInit).1.access_user
          = some { uA with
              upload_traffic := uA.upload_traffic
                + (([.enc [1, 2], .enc [3]] : List CallOp).map CallOp.len).sum,
              download_traffic := uA.download_traffic
                + (([.enc [1, 2], .enc [3]] : List CallOp).map CallOp.len).sum } ∧
        (runOps demoModel [.enc [1, 2], .enc [3]]
            { cmDemoUdp with access_user := some uA } gInit).2.network_transmit_bytes
          = gInit.network_transmit_bytes
            + (([.enc [1, 2], .enc [3]] : List CallOp).map CallOp.len).sum)) :=
  ⟨⟨⟨by decide,
      CoveredOps.enc _ _ _ _
        (CoveredOps.dec _ _ _ _ (by decide)
          (CoveredOps.enc _ _ _ _ (CoveredOps.nil _ _))),
      by decide, by decide, by decide⟩,
    traffic_counters_sum demoModel [.enc [1, 2], .dec [3, 4, 5], .enc [6, 7, 8, 9]]
      { cmDemoTcp with access_user := some uA } gInit uA
      cmDemoUdp gInit [20, 20, 7] [7] ⟨2, 20, true, 101, 0, 0⟩
      (by decide)
      (CoveredOps.enc _ _ _ _
        (CoveredOps.dec _ _ _ _ (by decide)
          (CoveredOps.enc _ _ _ _ (CoveredOps.nil _ _))))
      (by decide) (by decide) (by decide)⟩,
  ⟨⟨by decide,
      CoveredOps.enc _ _ _ _ (CoveredOps.enc _ _ _ _ (CoveredOps.nil _ _))⟩,
    (traffic_counters_sum demoModel [.enc [1, 2], .enc [3]]
      { cmDemoUdp with access_user := some uA } gInit uA
      cmDemoUdp gInit [20, 20, 7] [7] ⟨2, 20, true, 101, 0, 0⟩
      (by decide)
      (CoveredOps.enc _ _ _ _ (CoveredOps.enc _ _ _ _ (CoveredOps.nil _ _)))
      (by decide) (by decide) (by decide)).1⟩⟩

/-- `_record_user_traffic` only touches the bound user's counters and the
transmit counter. -/
theorem record_user_traffic_stable (cm : CipherMan) (g : GlobalState) (n : Nat) :
    (CipherMan.record_user_traffic cm g n).1.access_user.isSome
      = cm.access_user.isSome ∧
    (CipherMan.record_user_traffic cm g n).1.cipher = cm.cipher ∧
    (CipherMan.record_user_traffic cm g n).1.ts_protocol = cm.ts_protocol ∧
    (CipherMan.record_user_traffic cm g n).2.bf = g.bf ∧
    (CipherMan.record_user_traffic cm g n).2.find_calls = g.find_calls ∧
    (CipherMan.record_user_traffic cm g n).2.trials = g.trials ∧
    (CipherMan.record_user_traffic cm g n).2.fast_decrypts = g.fast_decrypts := by
  unfold CipherMan.record_user_traffic
  cases h : cm.access_user <;> simp [h]

/-- The post-identification checks and the promotion never touch the
cipher, the transport flag, the replay filter or the trial counters, and
keep a bound user bound. -/
theorem after_find_stable (cm : CipherMan) (g : GlobalState) :
    (CipherMan.after_find cm g).cm.cipher = cm.cipher ∧
    (CipherMan.after_find cm g).cm.ts_protocol = cm.ts_protocol ∧
    (CipherMan.after_find cm g).cm.access_user.isSome = cm.access_user.isSome ∧
    (CipherMan.after_find cm g).g.bf = g.bf ∧
    (CipherMan.after_find cm g).g.find_calls = g.find_calls ∧
    (CipherMan.after_find cm g).g.trials = g.trials ∧
    (CipherMan.after_find cm g).g.fast_decrypts = g.fast_decrypts := by
  unfold CipherMan.after_find
  split
  next h => simp [h]
  next au h =>
    split
    · simp [h]
    · split
      next lu hl =>
        split
        · split
          next hh => simp [h]
          next fu hh => simp [h, GlobalState.save]
        · simp [h]
      next hl => simp [h]

/-- `_find_access_user` never touches the candidate list, transport flag,
buffer, threshold, transmit counter, directory or fast-path counter. -/
theorem find_access_user_cm_stable (M : CipherModel) (cm : CipherMan)
    (g : GlobalState) (fd : List Nat) :
    (CipherMan.find_access_user M cm g fd).cm.ts_protocol = cm.ts_protocol ∧
    (CipherMan.find_access_user M cm g fd).cm.user_list = cm.user_list ∧
    (CipherMan.find_access_user M cm g fd).cm.buffer = cm.buffer ∧
    (CipherMan.find_access_user M cm g fd).cm.first_data_len = cm.first_data_len ∧
    (CipherMan.find_access_user M cm g fd).g.fast_decrypts = g.fast_decrypts ∧
    (CipherMan.find_access_user M cm g fd).g.network_transmit_bytes
      = g.network_transmit_bytes ∧
    (CipherMan.find_access_user M cm g fd).g.directory = g.directory := by
  unfold CipherMan.find_access_user
  split
  · exact ⟨rfl, rfl, rfl, rfl, rfl, rfl, rfl⟩
  · have hcm := trial_loop_cm_stable M cm.ts_protocol fd cm.user_list cm
      { g with find_calls := g.find_calls + 1,
               bf := fd.take M.SALT_SIZE :: g.bf } 0
    have hg := trial_loop_g_stable M cm.ts_protocol fd cm.user_list cm
      { g with find_calls := g.find_calls + 1,
               bf := fd.take M.SALT_SIZE :: g.bf } 0
    exact ⟨hcm.2.1, hcm.1, hcm.2.2.1, hcm.2.2.2,
      hg.2.2.2.2, hg.2.2.1, hg.2.2.2.1⟩

/-- On a UDP session `_find_access_user` never assigns the persisted
cipher. -/
theorem find_access_user_udp_cipher (M : CipherModel) (cm : CipherMan)
    (g : GlobalState) (fd : List Nat) (hts : cm.ts_protocol = .udp) :
    (CipherMan.find_access_user M cm g fd).cm.cipher = cm.cipher := by
  unfold CipherMan.find_access_user
  split
  · rfl
  · rw [hts]
    exact trial_loop_udp_cipher M fd cm.user_list cm
      { g with find_calls := g.find_calls + 1,
               bf := fd.take M.SALT_SIZE :: g.bf } 0

/-- On a session that is already bound, `_init_cipher_and_decrypt_first_data`
never consults the replay filter, never runs identification or a trial, and
keeps the session bound with its cipher untouched. -/
theorem init_first_bound_stable (M : CipherModel) (cm : CipherMan)
    (g : GlobalState) (data : List Nat) (au : SUser)
    (ha : cm.access_user = some au) :
    (CipherMan.init_first M cm g data).cm.access_user.isSome = true ∧
    (CipherMan.init_first M cm g data).cm.cipher = cm.cipher ∧
    (CipherMan.init_first M cm g data).cm.ts_protocol = cm.ts_protocol ∧
    (CipherMan.init_first M cm g data).g.bf = g.bf ∧
    (CipherMan.init_first M cm g data).g.find_calls = g.find_calls ∧
    (CipherMan.init_first M cm g data).g.trials = g.trials ∧
    (CipherMan.init_first M cm g data).g.fast_decrypts = g.fast_decrypts := by
  obtain ⟨ul, acc, ts, cp, fdt, buf, last, fdl⟩ := cm
  dsimp only at ha ⊢
  subst ha
  unfold CipherMan.init_first
  split
  · exact ⟨rfl, rfl, rfl, rfl, rfl, rfl, rfl⟩
  · dsimp only
    have h := after_find_stable ⟨ul, some au, ts, cp, fdt, [], last, fdl⟩ g
    exact ⟨h.2.2.1, h.1, h.2.1, h.2.2.2.1, h.2.2.2.2.1,
      h.2.2.2.2.2.1, h.2.2.2.2.2.2⟩

/-- `encrypt` never consults the replay filter or identification, never
unbinds a user, and on UDP never assigns the persisted cipher. -/
theorem encrypt_keeps (M : CipherModel) (cm : CipherMan) (g : GlobalState)
    (d : List Nat) :
    (CipherMan.encrypt M cm g d).cm.access_user.isSome = cm.access_user.isSome ∧
    (CipherMan.encrypt M cm g d).cm.ts_protocol = cm.ts_protocol ∧
    (CipherMan.encrypt M cm g d).g.bf = g.bf ∧
    (CipherMan.encrypt M cm g d).g.find_calls = g.find_calls ∧
    (CipherMan.encrypt M cm g d).g.trials = g.trials ∧
    (CipherMan.encrypt M cm g d).g.fast_decrypts = g.fast_decrypts ∧
    (cm.ts_protocol = .udp → (CipherMan.encrypt M cm g d).cm.cipher = cm.cipher) := by
  obtain ⟨ul, acc, ts, cp, fdt, buf, last, fdl⟩ := cm
  cases acc <;> cases ts <;> cases cp <;>
    simp [CipherMan.encrypt, CipherMan.record_user_traffic]

/-- A `decrypt` call on a session that is already bound never consults the
replay filter and never runs identification or a trial; the session stays
bound. -/
theorem decrypt_keeps_bound (M : CipherModel) (cm : CipherMan)
    (g : GlobalState) (d : List Nat) (au : SUser)
    (ha : cm.access_user = some au) :
    (CipherMan.decrypt M cm g d).cm.access_user.isSome = true ∧
    (CipherMan.decrypt M cm g d).g.bf = g.bf ∧
    (CipherMan.decrypt M cm g d).g.find_calls = g.find_calls ∧
    (CipherMan.decrypt M cm g d).g.trials = g.trials := by
  unfold CipherMan.decrypt
  split
  · -- no persisted cipher: the call goes through the first-data path
    have h := init_first_bound_stable M cm g d au ha
    dsimp only
    split
    · exact ⟨h.1, h.2.2.2.1, h.2.2.2.2.1, h.2.2.2.2.2.1⟩
    · exact ⟨h.1, h.2.2.2.1, h.2.2.2.2.1, h.2.2.2.2.2.1⟩
    · next dd hret =>
      have hr := record_user_traffic_stable
        (CipherMan.init_first M cm g d).cm (CipherMan.init_first M cm g d).g
        dd.length
      refine ⟨?_, ?_, ?_, ?_⟩
      · rw [hr.1]; exact h.1
      · rw [hr.2.2.2.1]; exact h.2.2.2.1
      · rw [hr.2.2.2.2.1]; exact h.2.2.2.2.1
      · rw [hr.2.2.2.2.2.1]; exact h.2.2.2.2.2.1
  · -- persisted cipher: the fast path only records traffic
    next c hc =>
    have hr := record_user_traffic_stable cm
      { g with fast_decrypts := g.fast_decrypts + 1 } d.length
    refine ⟨?_, ?_, ?_, ?_⟩
    · rw [hr.1, ha]; rfl
    · exact hr.2.2.2.1
    · exact hr.2.2.2.2.1
    · exact hr.2.2.2.2.2.1

/-- Any sequence of encrypt/decrypt calls on a session that is already
bound keeps it bound and never touches the replay filter, the
identification counter or the trial counter. -/
theorem runOps_bound_no_identification (M : CipherModel) (ops : List CallOp) :
    ∀ (cm : CipherMan) (g : GlobalState), cm.access_user.isSome = true →
    (runOps M ops cm g).1.access_user.isSome = true ∧
    (runOps M ops cm g).2.bf = g.bf ∧
    (runOps M ops cm g).2.find_calls = g.find_calls ∧
    (runOps M ops cm g).2.trials = g.trials := by
  induction ops with
  | nil => intro cm g ha; exact ⟨ha, rfl, rfl, rfl⟩
  | cons op rest ih =>
    intro cm g ha
    cases op with
    | enc d =>
      have he := encrypt_keeps M cm g d
      have hrec := ih (CipherMan.encrypt M cm g d).cm (CipherMan.encrypt M cm g d).g
        (by rw [he.1]; exact ha)
      simp only [runOps]
      exact ⟨hrec.1, by rw [hrec.2.1, he.2.2.1],
        by rw [hrec.2.2.1, he.2.2.2.1], by rw [hrec.2.2.2, he.2.2.2.2.1]⟩
    | dec d =>
      obtain ⟨au, hau⟩ := Option.isSome_iff_exists.mp ha
      have hd := decrypt_keeps_bound M cm g d au hau
      have hrec := ih (CipherMan.decrypt M cm g d).cm (CipherMan.decrypt M cm g d).g hd.1
      simp only [runOps]
      exact ⟨hrec.1, by rw [hrec.2.1, hd.2.1],
        by rw [hrec.2.2.1, hd.2.2.1], by rw [hrec.2.2.2, hd.2.2.2]⟩

/-- C9: a manager built by `get_cipher_by_port` for a port with exactly one
user is pre-bound to that user, and over any sequence of encrypt/decrypt
calls on that session identification is never invoked: the replay filter is
never consulted or extended (no first-packet salt is checked or inserted),
`_find_access_user` is never entered, and no trial decryption is ever
performed. -/
theorem prebound_session_never_identifies (M : CipherModel)
    (user_list : List SUser) (ts : TSProtocol) (g : GlobalState)
    (ops : List CallOp) (h1 : user_list.length = 1) :
    (CipherMan.get_cipher_by_port M user_list ts).access_user = user_list.head? ∧
    (CipherMan.get_cipher_by_port M user_list ts).access_user.isSome = true ∧
    (runOps M ops (CipherMan.get_cipher_by_port M user_list ts) g).2.bf = g.bf ∧
    (runOps M ops (CipherMan.get_cipher_by_port M user_list ts) g).2.find_calls
      = g.find_calls ∧
    (runOps M ops (CipherMan.get_cipher_by_port M user_list ts) g).2.trials
      = g.trials := by
  have hacc : (CipherMan.get_cipher_by_port M user_list ts).access_user
      = user_list.head? := by
    unfold CipherMan.get_cipher_by_port CipherMan.init
    simp [h1]
  have hsome : user_list.head?.isSome = true := by
    cases user_list with
    | nil => simp at h1
    | cons u us => simp
  have hrun := runOps_bound_no_identification M ops
    (CipherMan.get_cipher_by_port M user_list ts) g (by rw [hacc]; exact hsome)
  exact ⟨hacc, by rw [hacc]; exact hsome, hrun.2.1, hrun.2.2.1, hrun.2.2.2⟩

/-- Witness for C9 on a concrete single-user port and a three-call
session. -/
theorem prebound_session_never_identifies_witness :
    (([uA] : List SUser).length = 1) ∧
    ((CipherMan.get_cipher_by_port demoModel [uA] .tcp).access_user
        = ([uA] : List SUser).head? ∧
      (CipherMan.get_cipher_by_port demoModel [uA] .tcp).access_user.isSome = true ∧
      (runOps demoModel [.dec [1, 2, 3, 4, 5], .enc [7], .dec [8, 9]]
        (CipherMan.get_cipher_by_port demoModel [uA] .tcp) gInit).2.bf = gInit.bf ∧
      (runOps demoModel [.dec [1, 2, 3, 4, 5], .enc [7], .dec [8, 9]]
        (CipherMan.get_cipher_by_port demoModel [uA] .tcp) gInit).2.find_calls
        = gInit.find_calls ∧
      (runOps demoModel [.dec [1, 2, 3, 4, 5], .enc [7], .dec [8, 9]]
        (CipherMan.get_cipher_by_port demoModel [uA] .tcp) gInit).2.trials
        = gInit.trials) :=
  ⟨by decide,
    prebound_session_never_identifies demoModel [uA] .tcp gInit
      [.dec [1, 2, 3, 4, 5], .enc [7], .dec [8, 9]] (by decide)⟩

/-- On a UDP session `_init_cipher_and_decrypt_first_data` never assigns
the persisted cipher, keeps the transport flag, and never takes the
persisted-cipher decrypt path. -/
theorem init_first_udp_stable (M : CipherModel) (cm : CipherMan)
    (g : GlobalState) (data : List Nat) (hts : cm.ts_protocol = .udp) :
    (CipherMan.init_first M cm g data).cm.cipher = cm.cipher ∧
    (CipherMan.init_first M cm g data).cm.ts_protocol = .udp ∧
    (CipherMan.init_first M cm g data).g.fast_decrypts = g.fast_decrypts := by
  unfold CipherMan.init_first
  split
  · exact ⟨rfl, hts, rfl⟩
  · split
    · dsimp only
      have hf1 : (CipherMan.find_access_user M { cm with buffer := [] } g
          (cm.buffer ++ data)).cm.cipher = cm.cipher :=
        find_access_user_udp_cipher M { cm with buffer := [] } g
          (cm.buffer ++ data) hts
      have hf2 := find_access_user_cm_stable M { cm with buffer := [] } g
        (cm.buffer ++ data)
      split
      · exact ⟨hf1, by rw [hf2.1]; exact hts, hf2.2.2.2.2.1⟩
      · have haf := after_find_stable
          (CipherMan.find_access_user M { cm with buffer := [] } g
            (cm.buffer ++ data)).cm
          (CipherMan.find_access_user M { cm with buffer := [] } g
            (cm.buffer ++ data)).g
        exact ⟨by rw [haf.1]; exact hf1,
          by rw [haf.2.1, hf2.1]; exact hts,
          by rw [haf.2.2.2.2.2.2]; exact hf2.2.2.2.2.1⟩
    · have haf := after_find_stable { cm with buffer := [] } g
      exact ⟨haf.1, by rw [haf.2.1]; exact hts, haf.2.2.2.2.2.2⟩

/-- A `decrypt` call on a UDP session with no persisted cipher leaves the
cipher unset, keeps the transport flag, and never executes the
persisted-cipher fast path. -/
theorem decrypt_udp_step (M : CipherModel) (cm : CipherMan) (g : GlobalState)
    (d : List Nat) (hts : cm.ts_protocol = .udp) (hc : cm.cipher = none) :
    (CipherMan.decrypt M cm g d).cm.cipher = none ∧
    (CipherMan.decrypt M cm g d).cm.ts_protocol = .udp ∧
    (CipherMan.decrypt M cm g d).g.fast_decrypts = g.fast_decrypts := by
  have h := init_first_udp_stable M cm g d hts
  rw [hc] at h
  unfold CipherMan.decrypt
  rw [hc]
  dsimp only
  split
  · exact h
  · exact h
  · next dd hret =>
    have hr := record_user_traffic_stable
      (CipherMan.init_first M cm g d).cm (CipherMan.init_first M cm g d).g
      dd.length
    exact ⟨by rw [hr.2.1]; exact h.1, by rw [hr.2.2.1]; exact h.2.1,
      by rw [hr.2.2.2.2.2.2]; exact h.2.2⟩

/-- C10: on a DATAGRAM session no operation ever assigns the persisted
cipher field — over any sequence of encrypt/decrypt calls `cipher` stays
absent — so every decrypt call takes the first-data path and the
persisted-cipher fast path is never executed. -/
theorem udp_session_cipher_never_assigned (M : CipherModel) (ops : List CallOp) :
    ∀ (cm : CipherMan) (g : GlobalState),
    cm.ts_protocol = .udp → cm.cipher = none →
    (runOps M ops cm g).1.cipher = none ∧
    (runOps M ops cm g).1.ts_protocol = .udp ∧
    (runOps M ops cm g).2.fast_decrypts = g.fast_decrypts := by
  induction ops with
  | nil => intro cm g hts hc; exact ⟨hc, hts, rfl⟩
  | cons op rest ih =>
    intro cm g hts hc
    cases op with
    | enc d =>
      have he := encrypt_keeps M cm g d
      have hrec := ih (CipherMan.encrypt M cm g d).cm (CipherMan.encrypt M cm g d).g
        (by rw [he.2.1]; exact hts) (by rw [he.2.2.2.2.2.2 hts]; exact hc)
      simp only [runOps]
      exact ⟨hrec.1, hrec.2.1, by rw [hrec.2.2, he.2.2.2.2.2.1]⟩
    | dec d =>
      have hd := decrypt_udp_step M cm g d hts hc
      have hrec := ih (CipherMan.decrypt M cm g d).cm (CipherMan.decrypt M cm g d).g
        hd.2.1 hd.1
      simp only [runOps]
      exact ⟨hrec.1, hrec.2.1, by rw [hrec.2.2, hd.2.2]⟩

/-- Witness for C10 on a concrete DATAGRAM session: after an identifying
decrypt, a stale decrypt and an encrypt, the cipher is still absent and
the fast path was never taken. -/
theorem udp_session_cipher_never_assigned_witness :
    (cmDemoUdp.ts_protocol = .udp ∧ cmDemoUdp.cipher = none) ∧
    ((runOps demoModel [.dec [20, 20, 7], .dec [20, 20, 8, 9], .enc [1, 2]]
        cmDemoUdp gInit).1.cipher = none ∧
      (runOps demoModel [.dec [20, 20, 7], .dec [20, 20, 8, 9], .enc [1, 2]]
        cmDemoUdp gInit).1.ts_protocol = .udp ∧
      (runOps demoModel [.dec [20, 20, 7], .dec [20, 20, 8, 9], .enc [1, 2]]
        cmDemoUdp gInit).2.fast_decrypts = gInit.fast_decrypts) :=
  ⟨⟨by decide, by decide⟩,
    udp_session_cipher_never_assigned demoModel
      [.dec [20, 20, 7], .dec [20, 20, 8, 9], .enc [1, 2]] cmDemoUdp gInit
      (by decide) (by decide)⟩

/-- C7: after a successful identification (a user bound, no error raised)
on a session that had not tried anyone before, `last_access_user` is the
first-iterated candidate (the head of the candidate list); when the matched
user differs from it, the matched user's `access_order` is set to the head
candidate's `access_order + 1` — one better than the best-known ordering,
the candidate list being kept in priority order — and that record is
persisted through the user directory; when the matched user is
`last_access_user` itself, no ordering field is modified and nothing is
saved. -/
theorem access_order_promotion (M : CipherModel) (cm : CipherMan)
    (g : GlobalState) (data : List Nat) (au u0 : SUser) (us : List SUser)
    (hul : cm.user_list = u0 :: us)
    (hub : cm.access_user = none)
    (hlast : cm.last_access_user = none)
    (hlen : ¬ (data.length + cm.buffer.length < cm.first_data_len))
    (hmatch : (CipherMan.find_access_user M { cm with buffer := [] } g
        (cm.buffer ++ data)).cm.access_user = some au)
    (hnoerr : (CipherMan.find_access_user M { cm with buffer := [] } g
        (cm.buffer ++ data)).err = none)
    (hen : au.enable = true) :
    (CipherMan.find_access_user M { cm with buffer := [] } g
        (cm.buffer ++ data)).cm.last_access_user = some u0 ∧
    (au.uid ≠ u0.uid →
      (CipherMan.init_first M cm g data).cm.access_user
        = some { au with access_order := u0.access_order + 1 } ∧
      (CipherMan.init_first M cm g data).g.directory
        = g.directory.map (fun v =>
            if v.uid = au.uid then { au with access_order := u0.access_order + 1 }
            else v)) ∧
    (au.uid = u0.uid →
      (CipherMan.init_first M cm g data).cm.access_user = some au ∧
      (CipherMan.init_first M cm g data).g
        = (CipherMan.find_access_user M { cm with buffer := [] } g
            (cm.buffer ++ data)).g) := by
  obtain ⟨ul, acc, ts, cp, fdt, buf, last, fdl⟩ := cm
  dsimp only at hul hub hlast hlen hmatch hnoerr ⊢
  subst hul; subst hub; subst hlast
  have hstable := find_access_user_cm_stable M ⟨u0 :: us, none, ts, cp, fdt, [], none, fdl⟩
    g (buf ++ data)
  have hseed : (CipherMan.find_access_user M
      ⟨u0 :: us, none, ts, cp, fdt, [], none, fdl⟩ g
      (buf ++ data)).cm.last_access_user = some u0 := by
    by_cases hsalt : (buf ++ data).take M.SALT_SIZE ∈ g.bf
    · rw [find_access_user_replay M _ g _ hsalt] at hnoerr
      exact absurd hnoerr (by simp)
    · unfold CipherMan.find_access_user
      rw [if_neg hsalt]
      exact trial_loop_seed_head M ts (buf ++ data) u0 us
        ⟨u0 :: us, none, ts, cp, fdt, [], none, fdl⟩ _ 0 rfl
  have hhead : (CipherMan.find_access_user M
      ⟨u0 :: us, none, ts, cp, fdt, [], none, fdl⟩ g
      (buf ++ data)).cm.user_list.head? = some u0 := by
    rw [hstable.2.1]
    rfl
  have hinit : CipherMan.init_first M ⟨u0 :: us, none, ts, cp, fdt, buf, none, fdl⟩ g data
      = CipherMan.after_find
          (CipherMan.find_access_user M
            ⟨u0 :: us, none, ts, cp, fdt, [], none, fdl⟩ g (buf ++ data)).cm
          (CipherMan.find_access_user M
            ⟨u0 :: us, none, ts, cp, fdt, [], none, fdl⟩ g (buf ++ data)).g := by
    rw [CipherMan.init_first, if_neg hlen]
    try dsimp only
    rw [hnoerr]
  refine ⟨hseed, ?_, ?_⟩
  · intro hne
    rw [hinit]
    refine ⟨?_, ?_⟩
    · simp [CipherMan.after_find, hmatch, hen, hseed, hhead, hne]
    · simp [CipherMan.after_find, hmatch, hen, hseed, hhead, hne, GlobalState.save,
        hstable.2.2.2.2.2.2]
  · intro heq
    rw [hinit]
    refine ⟨?_, ?_⟩
    · simp [CipherMan.after_find, hmatch, hen, hseed, hhead, heq]
    · simp [CipherMan.after_find, hmatch, hen, hseed, hhead, heq]

/-- Witness for C7, applied to a blob matching the second candidate (the
ordering is promoted and saved) and to a blob matching the first candidate
(nothing is modified). -/
theorem access_order_promotion_witness :
    ((cmDemoTcp.user_list = uA :: [uB] ∧
        cmDemoTcp.access_user = none ∧
        cmDemoTcp.last_access_user = none ∧
        ¬ (([20, 20, 1, 2, 3] : List Nat).length + cmDemoTcp.buffer.length
            < cmDemoTcp.first_data_len) ∧
        (CipherMan.find_access_user demoModel { cmDemoTcp with buffer := [] } gInit
          (cmDemoTcp.buffer ++ [20, 20, 1, 2, 3])).cm.access_user = some uB ∧
        (CipherMan.find_access_user demoModel { cmDemoTcp with buffer := [] } gInit
          (cmDemoTcp.buffer ++ [20, 20, 1, 2, 3])).err = none ∧
        uB.enable = true) ∧
      ((CipherMan.find_access_user demoModel { cmDemoTcp with buffer := [] } gInit
          (cmDemoTcp.buffer ++ [20, 20, 1, 2, 3])).cm.last_access_user = some uA ∧
        (uB.uid ≠ uA.uid →
          (CipherMan.init_first demoModel cmDemoTcp gInit
              [20, 20, 1, 2, 3]).cm.access_user
            = some { uB with access_order := uA.access_order + 1 } ∧
          (CipherMan.init_first demoModel cmDemoTcp gInit
              [20, 20, 1, 2, 3]).g.directory
            = gInit.directory.map (fun v =>
                if v.uid = uB.uid then { uB with access_order := uA.access_order + 1 }
                else v)) ∧
        (uB.uid = uA.uid →
          (CipherMan.init_first demoModel cmDemoTcp gInit
              [20, 20, 1, 2, 3]).cm.access_user = some uB ∧
          (CipherMan.init_first demoModel cmDemoTcp gInit [20, 20, 1, 2, 3]).g
            = (CipherMan.find_access_user demoModel { cmDemoTcp with buffer := [] }
                gInit (cmDemoTcp.buffer ++ [20, 20, 1, 2, 3])).g))) ∧
    ((cmDemoTcp.user_list = uA :: [uB] ∧
        (CipherMan.find_access_user demoModel { cmDemoTcp with buffer := [] } gInit
          (cmDemoTcp.buffer ++ [10, 10, 4, 5, 6])).cm.access_user = some uA ∧
        (CipherMan.find_access_user demoModel { cmDemoTcp with buffer := [] } gInit
          (cmDemoTcp.buffer ++ [10, 10, 4, 5, 6])).err = none) ∧
      ((CipherMan.find_access_user demoModel { cmDemoTcp with buffer := [] } gInit
          (cmDemoTcp.buffer ++ [10, 10, 4, 5, 6])).cm.last_access_user = some uA ∧
        (uA.uid ≠ uA.uid →
          (CipherMan.init_first demoModel cmDemoTcp gInit
              [10, 10, 4, 5, 6]).cm.access_user
            = some { uA with access_order := uA.access_order + 1 } ∧
          (CipherMan.init_first demoModel cmDemoTcp gInit
              [10, 10, 4, 5, 6]).g.directory
            = gInit.directory.map (fun v =>
                if v.uid = uA.uid then { uA with access_order := uA.access_order + 1 }
                else v)) ∧
        (uA.uid = uA.uid →
          (CipherMan.init_first demoModel cmDemoTcp gInit
              [10, 10, 4, 5, 6]).cm.access_user = some uA ∧
          (CipherMan.init_first demoModel cmDemoTcp gInit [10, 10, 4, 5, 6]).g
            = (CipherMan.find_access_user demoModel { cmDemoTcp with buffer := [] }
                gInit (cmDemoTcp.buffer ++ [10, 10, 4, 5, 6])).g))) :=
  ⟨⟨⟨by decide, by decide, by decide, by decide, by decide, by decide, by decide⟩,
      access_order_promotion demoModel cmDemoTcp gInit [20, 20, 1, 2, 3] uB uA [uB]
        (by decide) (by decide) (by decide) (by decide) (by decide) (by decide)
        (by decide)⟩,
    ⟨⟨by decide, by decide, by decide⟩,
      access_order_promotion demoModel cmDemoTcp gInit [10, 10, 4, 5, 6] uA uA [uB]
        (by decide) (by decide) (by decide) (by decide) (by decide) (by decide)
        (by decide)⟩⟩
